import Mathlib

/-!
Shallow embedding of `src/experiments/tf_trainer/common/text_preprocessor.py`.

The embedding covers the three parts of the module the claims are about:

* `_get_word_idx_and_embeddings` (source lines 182-236): one pass over the
  word-vector file building `word_to_idx`, the embedding matrix (padding row
  inserted at position 0, unknown-token row appended last) and the unknown
  token index.
* `_tokenize` (source lines 46-64): the per-example encoder mapping a token
  list to vocabulary indices, substituting the unknown index on a miss.
* `add_init_fn_to_estimatorSpec` (source lines 112-136): composition of the
  embedding initialization hook with a pre-existing scaffold `init_fn`.

Modelling conventions: machine `float32` values are modelled as exact
rationals (`ℚ`); `np.random.randn(d)` is modelled by an arbitrary caller
supplied source `rand : Nat → List ℚ` applied at `d`; a file is the list of
its lines, each line already split on whitespace (Python `line.split()`)
into a list of string tokens; Python `str` vs `bytes` values (which compare
unequal as dict keys) are modelled by the two constructors of `PyStr`.
-/

/-- Model of a Python string-like dict key: `str` and `bytes` objects with
the same character content are distinct keys (`b'a' != 'a'` in Python 3).
Reading the file in mode `'rb'` yields `bytes` lines and hence `bytes`
words; mode `'r'` yields `str` words. -/
inductive PyStr where
  | str : String → PyStr
  | bytes : String → PyStr
deriving DecidableEq

deriving instance DecidableEq for Except

/-- Numeric value of a list of decimal digit characters. -/
def digitsVal (l : List Char) : Nat :=
  l.foldl (fun a c => 10 * a + (c.toNat - 48)) 0

/-- Model of parsing one token as a float, as `np.asarray(..., dtype='float32')`
does at source line 219: accepts optionally signed decimal literals
(`"3"`, `"3.5"`, `".5"`, `"3."`), returns `none` on anything else.  The
value is the exact rational denoted by the literal (`float32` rounding is
abstracted away; no claim depends on it). -/
def parseFloat? (s : String) : Option ℚ :=
  let signBody : Bool × List Char :=
    match s.data with
    | '-' :: t => (true, t)
    | '+' :: t => (false, t)
    | cs => (false, cs)
  let body := signBody.2
  let ipRest := body.span Char.isDigit
  let val? : Option ℚ :=
    match ipRest.2 with
    | [] => if ipRest.1 ≠ [] then some ((digitsVal ipRest.1 : ℚ)) else none
    | '.' :: frac =>
      if frac.all Char.isDigit ∧ (ipRest.1 ≠ [] ∨ frac ≠ []) then
        some ((digitsVal ipRest.1 : ℚ) + (digitsVal frac : ℚ) / (10 : ℚ) ^ frac.length)
      else none
    | _ => none
  val?.map (fun v => if signBody.1 then -v else v)

/-- The `word_to_idx` dict: association list of key/index pairs in Python
dict insertion order. -/
abbrev Dict := List (PyStr × Nat)

/-- Membership test for a key, as Python `key in d`. -/
def hasKey (d : Dict) (k : PyStr) : Bool :=
  d.any (fun p => p.1 == k)

/-- Model of Python `d[k] = v`: an existing key keeps its position and gets
the new value, a new key is appended. -/
def dictInsert (d : Dict) (k : PyStr) (v : Nat) : Dict :=
  if hasKey d k then d.map (fun p => if p.1 = k then (k, v) else p)
  else d ++ [(k, v)]

/-- Model of Python `d.get(k)` returning `None` on a miss. -/
def dictGet (d : Dict) (k : PyStr) : Option Nat :=
  (d.find? (fun p => p.1 == k)).map (fun p => p.2)

/-- The exceptions `_get_word_idx_and_embeddings` can raise.
`indexError` models `values[0]` on an empty line and `word_embeddings[0]`
when no row was parsed; `parseError` models the `ValueError` numpy raises
at source line 219 when a vector component is not a float (its message does
not mention the binary/text mode); `initError` models the
`Exception('Embeddings can not be initialized. Is embedding binary = ...?')`
raised at source lines 231-233, which carries the `is_binary_embedding`
flag in its message. -/
inductive BuildError where
  | indexError : BuildError
  | parseError : BuildError
  | initError : Bool → BuildError
deriving DecidableEq

/-- Whether the raised error's message names the binary/text mode flag:
only the `initError` message interpolates `is_binary_embedding`. -/
def errMentionsMode : BuildError → Bool
  | .initError _ => true
  | _ => false

/-- The word read from a line: a `bytes` object when the file was opened in
mode `'rb'`, a `str` otherwise. -/
def mkKey (is_binary : Bool) (w : String) : PyStr :=
  if is_binary then .bytes w else .str w

/-- Model of the loop guard `if max_words and idx >= max_words: break`
(source line 211); note Python truthiness makes `max_words = 0` mean
"no limit". -/
def maxReached (max_words : Option Nat) (idx : Nat) : Bool :=
  match max_words with
  | none => false
  | some m => decide (m ≠ 0) && decide (m ≤ idx)

/-- The file-reading loop of `_get_word_idx_and_embeddings` (source lines
210-221): `idx` enumerates lines (header line included), a first line of
exactly two tokens is skipped, otherwise the first token becomes a dict key
mapped to `idx + 1` and the remaining tokens are parsed into a vector. -/
def loadLines (is_binary : Bool) (max_words : Option Nat) :
    Nat → Dict → List (List ℚ) → List (List String) →
    Except BuildError (Dict × List (List ℚ))
  | _, word_to_idx, word_embeddings, [] => .ok (word_to_idx, word_embeddings)
  | idx, word_to_idx, word_embeddings, line :: rest =>
    if maxReached max_words idx then .ok (word_to_idx, word_embeddings)
    else if line.length = 2 ∧ idx = 0 then
      -- Remove header when necessary (source line 216).
      loadLines is_binary max_words (idx + 1) word_to_idx word_embeddings rest
    else
      match line with
      | [] => .error .indexError
      | word :: valueToks =>
        match valueToks.mapM parseFloat? with
        | none => .error .parseError
        | some vec =>
          loadLines is_binary max_words (idx + 1)
            (dictInsert word_to_idx (mkKey is_binary word) (idx + 1))
            (word_embeddings ++ [vec]) rest

/-- Columnwise mean of a list of rows, as `matrix.mean(axis=0)` at source
line 235 (the matrix is rectangular whenever this is reached). -/
def matMean (m : List (List ℚ)) : List ℚ :=
  match m with
  | [] => []
  | r0 :: _ =>
    (List.range r0.length).map
      (fun j => (m.map (fun r => r.getD j 0)).sum / (m.length : ℚ))

/-- The four values returned by `_get_word_idx_and_embeddings`. -/
structure BuildResult where
  word_to_idx : Dict
  embeddings_matrix : List (List ℚ)
  unknown_token : Nat
  embedding_size : Nat
deriving DecidableEq

/-- Model of `TextPreprocessor._get_word_idx_and_embeddings` (source lines
182-236).  After the reading loop: `word_embeddings[0]` (the first real
row) gives the dimensionality for the random padding row inserted at
position 0 (`IndexError` when no row was parsed); `unknown_token` is the
row count after that insertion; `np.asarray(word_embeddings, dtype=float32)`
fails on a ragged list, which the bare `except` converts into the
mode-naming `Exception`; finally the columnwise mean of all current rows is
appended as the unknown-token row. -/
def _get_word_idx_and_embeddings (rand : Nat → List ℚ) (file : List (List String))
    (is_binary_embedding : Bool) (max_words : Option Nat) :
    Except BuildError BuildResult :=
  match loadLines is_binary_embedding max_words 0 [] [] file with
  | .error e => .error e
  | .ok (word_to_idx, word_embeddings0) =>
    match word_embeddings0 with
    | [] => .error .indexError
    | first :: t =>
      if ((rand first.length) :: first :: t).all
          (fun row => row.length = (rand first.length).length) = true then
        .ok ⟨word_to_idx,
             ((rand first.length) :: first :: t)
               ++ [matMean ((rand first.length) :: first :: t)],
             ((rand first.length) :: first :: t).length,
             (rand first.length).length⟩
      else .error (.initError is_binary_embedding)

/-- Model of Python `w.lower()`: lowercase every character. -/
def pyLower (s : String) : String := ⟨s.data.map Char.toLower⟩

/-- Model of the `_tokenize` closure inside `train_preprocess_fn` (source
lines 46-64): tokenize, optionally lowercase every token, then map each
token to `word_to_idx.get(w, unknown_token)`.  The tokens are Python `str`
objects (the text was decoded), hence the `PyStr.str` keys. -/
def _tokenize (word_to_idx : Dict) (unknown_token : Nat)
    (tokenizer : String → List String) (lowercase : Bool) (text : String) :
    List Nat :=
  let words := tokenizer text
  let words := if lowercase then words.map (fun w => pyLower w) else words
  words.map (fun w => (dictGet word_to_idx (PyStr.str w)).getD unknown_token)

/-- Model of `tf.train.Scaffold`: the `init_fn` slot (absent = Python
`None`, which is falsy at source line 117) plus every other attribute,
copied wholesale by `copy_from_scaffold`.  An init function is modelled as
a session-state transformer `σ → σ`. -/
structure ScaffoldM (σ β : Type) where
  init_fn : Option (σ → σ)
  rest : β

/-- Model of `tf.estimator.EstimatorSpec`: the scaffold plus all other
fields (mode, predictions, loss, train_op, eval_metric_ops, export_outputs,
hooks), which source lines 123-135 forward unchanged. -/
structure EstimatorSpecM (σ β α : Type) where
  scaffold : ScaffoldM σ β
  fields : α

/-- Model of `add_init_fn_to_estimatorSpec` (source lines 112-136): the new
scaffold's `init_fn` runs the supplied `init_fn` first, then the original
scaffold's `init_fn` when one was declared; every other slot is forwarded. -/
def add_init_fn_to_estimatorSpec {σ β α : Type}
    (estimator_spec : EstimatorSpecM σ β α) (init_fn : σ → σ) :
    EstimatorSpecM σ β α :=
  let new_init_fn : σ → σ := fun sess =>
    match estimator_spec.scaffold.init_fn with
    | some f => f (init_fn sess)
    | none => init_fn sess
  { scaffold := { init_fn := some new_init_fn,
                  rest := estimator_spec.scaffold.rest },
    fields := estimator_spec.fields }

/-- Run a scaffold's `init_fn` on a session state (no-op when absent). -/
def runScaffoldInit {σ β : Type} (sc : ScaffoldM σ β) (s : σ) : σ :=
  match sc.init_fn with
  | some f => f s
  | none => s

/-- The word of a line (its first whitespace-separated token). -/
def lineWord (l : List String) : String := l.headD ""

/-- The vector of a line: its tokens after the first, parsed as floats. -/
def lineVec (l : List String) : List ℚ :=
  (l.tail.mapM parseFloat?).getD []

/-- A line the loop accepts: nonempty, and every token after the word
parses as a float. -/
def goodLine (l : List String) : Bool :=
  !l.isEmpty && (l.tail.mapM parseFloat?).isSome

/-- Dict obtained by inserting each line's word with index `i + 1`,
`i + 2`, ... in file order (the loop's effect on `word_to_idx` once past
any header). -/
def insertAllFrom (is_binary : Bool) : Nat → Dict → List (List String) → Dict
  | _, wti, [] => wti
  | i, wti, l :: rest =>
    insertAllFrom is_binary (i + 1)
      (dictInsert wti (mkKey is_binary (lineWord l)) (i + 1)) rest

/-- Whether a build succeeded. -/
def isOkB : Except BuildError BuildResult → Bool
  | .ok _ => true
  | .error _ => false

/-- The result of a successful build (dummy on failure). -/
def resultOf : Except BuildError BuildResult → BuildResult
  | .ok r => r
  | .error _ => ⟨[], [], 0, 0⟩

/-- A concrete model of `np.random.randn`: the all-zero vector of the
requested dimension. -/
def rand0 : Nat → List ℚ := fun n => List.replicate n 0

/-- A second concrete random source, everywhere different from `rand0`. -/
def rand1 : Nat → List ℚ := fun n => List.replicate n 1

/-- A one-line embedding file: `a 1.0 2.0`. -/
def fileA : List (List String) := [["a", "1.0", "2.0"]]

/-- Result of building `fileA` in text mode with `rand0` padding. -/
def rA : BuildResult := ⟨[(.str "a", 1)], [[0, 0], [1, 2], [1/2, 1]], 2, 2⟩

/-- Result of building `fileA` in text mode with `rand1` padding. -/
def rA1 : BuildResult := ⟨[(.str "a", 1)], [[1, 1], [1, 2], [1, 3/2]], 2, 2⟩

/-- Result of building `fileA` in binary mode with `rand0` padding: the
single dict key is a `bytes` object. -/
def rAb : BuildResult := ⟨[(.bytes "a", 1)], [[0, 0], [1, 2], [1/2, 1]], 2, 2⟩

/-- An embedding file with a 2-token header line: `2 2`, `a 1.0 2.0`,
`b 3.0 4.0`. -/
def headerFile : List (List String) :=
  [["2", "2"], ["a", "1.0", "2.0"], ["b", "3.0", "4.0"]]

/-- Result of building `headerFile` with `rand0` padding: `a ↦ 2`, `b ↦ 3`,
although `a`'s vector sits in row 1 and `b`'s in row 2. -/
def rHdr : BuildResult :=
  ⟨[(.str "a", 2), (.str "b", 3)], [[0, 0], [1, 2], [3, 4], [4/3, 2]], 3, 2⟩

/-- A file whose second line carries a non-numeric vector component. -/
def badFile : List (List String) := [["a", "1.0", "2.0"], ["b", "3.0", "zzz"]]

/-- A tokenizer that treats the whole text as a single token. -/
def tok1 : String → List String := fun t => [t]

/-- Every successful build has the final shape produced by source lines
223-235: the rows accumulated by the loop prefixed with the random padding
row, the columnwise mean appended last, the unknown index taken before the
append, and the embedding size read from the (post-insert) first row. -/
lemma build_ok_shape (rand : Nat → List ℚ) (file : List (List String)) (ib : Bool)
    (mw : Option Nat) (r : BuildResult)
    (h : _get_word_idx_and_embeddings rand file ib mw = .ok r) :
    ∃ wti first t,
      loadLines ib mw 0 [] [] file = .ok (wti, first :: t) ∧
      ((rand first.length) :: first :: t).all
        (fun row => row.length = (rand first.length).length) = true ∧
      r = ⟨wti, ((rand first.length) :: first :: t)
                  ++ [matMean ((rand first.length) :: first :: t)],
           ((rand first.length) :: first :: t).length,
           (rand first.length).length⟩ := by
  unfold _get_word_idx_and_embeddings at h
  split at h
  · exact absurd h (by simp)
  · rename_i wti we0 heq
    split at h
    · exact absurd h (by simp)
    · rename_i first t
      split at h
      · rename_i hall
        refine ⟨wti, first, t, heq, hall, ?_⟩
        exact (Except.ok.injEq _ _ ▸ h).symm
      · exact absurd h (by simp)

/-- C1.  The claim asserts row alignment also for files with a 2-token
header.  Evaluating the code on `headerFile` (header `2 2`, then
`a 1.0 2.0` and `b 3.0 4.0`): the build succeeds, the word `a` is assigned
index 2, yet row 2 of the matrix is `[3, 4]` — the vector of `b` — and not
`[1, 2]`, the vector parsed from `a`'s own line (which sits in row 1).
The loop keeps counting the skipped header line, so every assigned index
exceeds the word's row by one. -/
theorem C1_header_misalignment :
    _get_word_idx_and_embeddings rand0 headerFile false none = .ok rHdr ∧
    dictGet rHdr.word_to_idx (PyStr.str "a") = some 2 ∧
    lineVec (headerFile.getD 1 []) = [1, 2] ∧
    rHdr.embeddings_matrix.getD 2 [] = [3, 4] ∧
    rHdr.embeddings_matrix.getD 2 [] ≠ lineVec (headerFile.getD 1 []) := by
  refine ⟨by with_unfolding_all rfl, by with_unfolding_all rfl,
    by with_unfolding_all rfl, by with_unfolding_all rfl,
    by with_unfolding_all (exact of_decide_eq_true rfl)⟩

/-- C2.  The claim asserts the index set is `{1, ..., vocab size}` also for
files with a header.  On `headerFile` the build succeeds with two words but
index values `[2, 3]`: index 1 is never assigned, and the last word's index
3 equals the unknown-token index. -/
theorem C2_header_index_range :
    _get_word_idx_and_embeddings rand0 headerFile false none = .ok rHdr ∧
    rHdr.word_to_idx.map (fun p => p.2) = [2, 3] ∧
    rHdr.word_to_idx.length = 2 ∧
    (1 ∉ rHdr.word_to_idx.map (fun p => p.2)) ∧
    rHdr.unknown_token ∈ rHdr.word_to_idx.map (fun p => p.2) := by
  refine ⟨by with_unfolding_all rfl, by with_unfolding_all rfl,
    by with_unfolding_all rfl, by decide, by decide⟩

/-- C3, counterexample.  On `badFile` (component `zzz` cannot parse) the
whole build fails as the claim says, but the raised error is the
`ValueError` of source line 219, whose message does not name the
binary/text mode: the mode-naming message belongs only to the exception of
source lines 231-233. -/
theorem C3_counterexample :
    _get_word_idx_and_embeddings rand0 badFile false none =
      .error .parseError ∧
    errMentionsMode .parseError = false := by
  exact ⟨by with_unfolding_all rfl, rfl⟩

/-- C4.  For every successful build, the final matrix row equals the
columnwise mean of all rows before it — the padding row 0 included, not
just the real word rows (source line 235 computes `mean(axis=0)` after the
padding row was inserted at position 0). -/
theorem C4_unknown_row_is_mean_of_all_rows (rand : Nat → List ℚ)
    (file : List (List String)) (ib : Bool) (mw : Option Nat) (r : BuildResult)
    (h : _get_word_idx_and_embeddings rand file ib mw = .ok r) :
    r.embeddings_matrix =
      r.embeddings_matrix.dropLast
        ++ [matMean r.embeddings_matrix.dropLast] := by
  obtain ⟨wti, first, t, -, -, hr⟩ := build_ok_shape rand file ib mw r h
  subst hr
  rw [List.dropLast_concat]

/-- C4, witness at `fileA`. -/
theorem C4_witness :
    rA.embeddings_matrix =
      rA.embeddings_matrix.dropLast
        ++ [matMean rA.embeddings_matrix.dropLast] :=
  C4_unknown_row_is_mean_of_all_rows rand0 fileA false none rA
    (by with_unfolding_all rfl)

/-- C5.  For every successful build, the returned unknown-token index is
the 0-based index of the final matrix row: `len(word_embeddings)` is taken
at source line 228 after the padding insert and before the mean row is
appended. -/
theorem C5_unknown_index_is_last_row (rand : Nat → List ℚ)
    (file : List (List String)) (ib : Bool) (mw : Option Nat) (r : BuildResult)
    (h : _get_word_idx_and_embeddings rand file ib mw = .ok r) :
    r.unknown_token + 1 = r.embeddings_matrix.length := by
  obtain ⟨wti, first, t, -, -, hr⟩ := build_ok_shape rand file ib mw r h
  subst hr
  simp

/-- C5, witness at `fileA`. -/
theorem C5_witness : rA.unknown_token + 1 = rA.embeddings_matrix.length :=
  C5_unknown_index_is_last_row rand0 fileA false none rA
    (by with_unfolding_all rfl)

/-- C9.  The scaffold produced by `add_init_fn_to_estimatorSpec` always
carries an init function; running it applies the new initializer first and
then whatever the original scaffold's init function was (a no-op when none
was declared), and every other slot of the spec and scaffold is forwarded
unchanged — the original hook is never dropped and the order is always
(new, then original). -/
theorem C9_init_fn_composition {σ β α : Type} (spec : EstimatorSpecM σ β α)
    (init_fn : σ → σ) (s : σ) :
    runScaffoldInit (add_init_fn_to_estimatorSpec spec init_fn).scaffold s =
      runScaffoldInit spec.scaffold (init_fn s) ∧
    (add_init_fn_to_estimatorSpec spec init_fn).scaffold.init_fn.isSome = true ∧
    (add_init_fn_to_estimatorSpec spec init_fn).scaffold.rest =
      spec.scaffold.rest ∧
    (add_init_fn_to_estimatorSpec spec init_fn).fields = spec.fields := by
  cases hs : spec.scaffold.init_fn <;>
    simp [add_init_fn_to_estimatorSpec, runScaffoldInit, hs]

/-- Unfolding equation for one loop step on a nonempty file. -/
lemma loadLines_cons (ib : Bool) (mw : Option Nat) (i : Nat) (wti : Dict)
    (embs : List (List ℚ)) (l : List String) (rest : List (List String)) :
    loadLines ib mw i wti embs (l :: rest) =
      if maxReached mw i then .ok (wti, embs)
      else if l.length = 2 ∧ i = 0 then loadLines ib mw (i + 1) wti embs rest
      else match l with
        | [] => .error .indexError
        | word :: valueToks =>
          match valueToks.mapM parseFloat? with
          | none => .error .parseError
          | some vec =>
            loadLines ib mw (i + 1) (dictInsert wti (mkKey ib word) (i + 1))
              (embs ++ [vec]) rest := rfl

/-- With no `max_words` limit the loop never stops early. -/
lemma maxReached_none (i : Nat) : maxReached none i = false := rfl

/-- With no `max_words` limit, processing `pre ++ rest` is processing `pre`
and then, if that succeeded, continuing on `rest` from the resulting state
with the line counter advanced by `pre.length`. -/
lemma loadLines_append (ib : Bool) :
    ∀ (pre rest : List (List String)) (i : Nat) (wti : Dict)
      (embs : List (List ℚ)),
    loadLines ib none i wti embs (pre ++ rest) =
      match loadLines ib none i wti embs pre with
      | .ok st => loadLines ib none (i + pre.length) st.1 st.2 rest
      | .error e => .error e := by
  intro pre
  induction pre with
  | nil => intro rest i wti embs; simp [loadLines]
  | cons l pre ih =>
    intro rest i wti embs
    rw [List.cons_append, loadLines_cons, loadLines_cons]
    simp only [maxReached_none, Bool.false_eq_true, if_false]
    have harith : i + (l :: pre).length = (i + 1) + pre.length := by
      simp [List.length_cons]; omega
    by_cases hh : l.length = 2 ∧ i = 0
    · rw [if_pos hh, if_pos hh, ih, harith]
    · rw [if_neg hh, if_neg hh]
      match l with
      | [] => rfl
      | word :: valueToks =>
        simp only []
        cases hm : valueToks.mapM parseFloat? with
        | none => simp [hm]
        | some vec =>
          simp only [hm]
          rw [ih]
          rw [show i + ((word :: valueToks) :: pre).length = (i + 1) + pre.length
            from by simp [List.length_cons]; omega]

/-- A line whose vector tokens fail to parse makes the loop raise
`parseError` immediately (unless the line is shadowed by header skipping,
i.e. it is line 0 with exactly two tokens). -/
lemma loadLines_bad_first (ib : Bool) (i : Nat) (wti : Dict)
    (embs : List (List ℚ)) (w : String) (badToks : List String)
    (rest : List (List String))
    (hi : ¬(badToks.length = 1 ∧ i = 0))
    (hbad : badToks.mapM parseFloat? = none) :
    loadLines ib none i wti embs ((w :: badToks) :: rest) =
      .error .parseError := by
  rw [loadLines_cons]
  simp only [maxReached_none, Bool.false_eq_true, if_false]
  rw [if_neg (by simpa [List.length_cons] using hi)]
  rw [hbad]

/-- C3, amended.  A vector component that fails to parse as a float is
fatal: after any cleanly processed prefix, a line whose vector tokens fail
to parse aborts the whole build (no mapping or matrix is returned,
whatever follows the bad line), but the error raised at that point is the
float-parse `ValueError`, which does not name the binary/text mode; the
mode-naming message accompanies only the matrix-assembly failure
`initError` (source lines 229-233). -/
theorem C3_parse_failure_fatal_unnamed_mode (rand : Nat → List ℚ) (ib : Bool)
    (pre : List (List String)) (w : String) (badToks : List String)
    (rest : List (List String)) (st : Dict × List (List ℚ))
    (hpre : loadLines ib none 0 [] [] pre = .ok st)
    (hbad : badToks.mapM parseFloat? = none)
    (hnh : ¬(pre = [] ∧ badToks.length = 1)) :
    _get_word_idx_and_embeddings rand (pre ++ (w :: badToks) :: rest) ib none =
      .error .parseError ∧
    errMentionsMode .parseError = false ∧
    (∀ b, errMentionsMode (.initError b) = true) := by
  refine ⟨?_, rfl, fun b => rfl⟩
  unfold _get_word_idx_and_embeddings
  rw [loadLines_append, hpre]
  simp only []
  rw [loadLines_bad_first]
  · intro hc
    exact hnh ⟨List.length_eq_zero.mp (by omega), hc.1⟩
  · exact hbad

/-- C3, witness at `badFile`. -/
theorem C3_witness :
    _get_word_idx_and_embeddings rand0 badFile false none =
      .error .parseError ∧
    errMentionsMode .parseError = false := by
  have h := C3_parse_failure_fatal_unnamed_mode rand0 false
    [["a", "1.0", "2.0"]] "b" ["3.0", "zzz"] [] ([(.str "a", 1)], [[1, 2]])
    (by with_unfolding_all rfl) (by with_unfolding_all rfl) (by decide)
  exact ⟨h.1, h.2.1⟩

/-- C6.  The encoder emits exactly one integer per token in token order:
its output length equals the token count, position `i` holds the
`word_to_idx` entry of token `i` (lowercased first when `lowercase` is
set) or the unknown-token index when the token is absent, and an empty
token list yields the empty sequence. -/
theorem C6_encoder (word_to_idx : Dict) (unknown_token : Nat)
    (tokenizer : String → List String) (lowercase : Bool) (text : String) :
    (_tokenize word_to_idx unknown_token tokenizer lowercase text).length =
      (tokenizer text).length ∧
    (∀ i, i < (tokenizer text).length →
      (_tokenize word_to_idx unknown_token tokenizer lowercase text).getD i 0 =
        (dictGet word_to_idx (PyStr.str
          (if lowercase then pyLower ((tokenizer text).getD i "")
           else (tokenizer text).getD i ""))).getD unknown_token) ∧
    (tokenizer text = [] →
      _tokenize word_to_idx unknown_token tokenizer lowercase text = []) := by
  refine ⟨?_, ?_, ?_⟩
  · cases lowercase <;> simp [_tokenize]
  · intro i hi
    cases lowercase <;>
      simp [_tokenize, List.getD_eq_getElem?_getD, List.getElem?_map,
        List.getElem?_eq_getElem hi]
  · intro he
    cases lowercase <;> simp [_tokenize, he]

/-- C6, witness: on the vocabulary of `fileA`, the known word `a` (given
as `A`, lowercased) encodes to its index 1, an absent word encodes to the
unknown index, and one token yields one integer. -/
theorem C6_witness :
    (_tokenize rA.word_to_idx rA.unknown_token tok1 true "A").getD 0 0 = 1 ∧
    (_tokenize rA.word_to_idx rA.unknown_token tok1 true "zz").getD 0 0 =
      rA.unknown_token ∧
    (_tokenize rA.word_to_idx rA.unknown_token tok1 true "A").length = 1 := by
  have h1 := (C6_encoder rA.word_to_idx rA.unknown_token tok1 true "A").2.1 0
    (by decide)
  have h2 := (C6_encoder rA.word_to_idx rA.unknown_token tok1 true "zz").2.1 0
    (by decide)
  have h3 := (C6_encoder rA.word_to_idx rA.unknown_token tok1 true "A").1
  exact ⟨h1.trans (by decide), h2.trans (by decide), h3.trans (by decide)⟩

/-- Every entry of `dictInsert d k v` either has key `k` or was already
in `d`. -/
lemma mem_dictInsert (p : PyStr × Nat) (d : Dict) (k : PyStr) (v : Nat)
    (h : p ∈ dictInsert d k v) : p.1 = k ∨ p ∈ d := by
  unfold dictInsert at h
  split at h
  · obtain ⟨q, hq, hfq⟩ := List.mem_map.mp h
    by_cases hqk : q.1 = k
    · left; rw [← hfq]; simp [hqk]
    · right; rw [← hfq]; simp [hqk]; exact hq
  · rcases List.mem_append.mp h with h | h
    · right; exact h
    · left
      have : p = (k, v) := by simpa using h
      rw [this]

/-- Every key the loop ever inserts is tagged with the open mode: `bytes`
keys in binary mode, `str` keys in text mode. -/
lemma loadLines_keys (ib : Bool) (mw : Option Nat) :
    ∀ (lines : List (List String)) (i : Nat) (wti : Dict)
      (embs : List (List ℚ)) (wti' : Dict) (embs' : List (List ℚ)),
    loadLines ib mw i wti embs lines = .ok (wti', embs') →
    (∀ p ∈ wti, ∃ s, p.1 = mkKey ib s) →
    ∀ p ∈ wti', ∃ s, p.1 = mkKey ib s := by
  intro lines
  induction lines with
  | nil =>
    intro i wti embs wti' embs' h hinv
    simp only [loadLines, Except.ok.injEq, Prod.mk.injEq] at h
    rw [← h.1]
    exact hinv
  | cons l rest ih =>
    intro i wti embs wti' embs' h hinv
    rw [loadLines_cons] at h
    split at h
    · simp only [Except.ok.injEq, Prod.mk.injEq] at h
      rw [← h.1]; exact hinv
    · split at h
      · exact ih _ _ _ _ _ h hinv
      · split at h
        · exact absurd h (by simp)
        · split at h
          · exact absurd h (by simp)
          · refine ih _ _ _ _ _ h ?_
            intro p hp
            rcases mem_dictInsert p wti _ _ hp with hk | hmem
            · exact ⟨_, hk⟩
            · exact hinv p hmem

/-- A dict whose keys are all `bytes` objects never answers a `str`
lookup. -/
lemma dictGet_str_none (d : Dict) (w : String)
    (hb : ∀ p ∈ d, ∃ s, p.1 = PyStr.bytes s) :
    dictGet d (PyStr.str w) = none := by
  unfold dictGet
  have hf : List.find? (fun p => p.1 == PyStr.str w) d = none := by
    rw [List.find?_eq_none]
    intro p hp
    obtain ⟨s, hs⟩ := hb p hp
    simp [hs]
  rw [hf]
  rfl

/-- C10.  When the preprocessor is built with `is_binary_embedding = True`,
every key of `word_to_idx` is a `bytes` object, while the encoder looks up
the `str` tokens produced by decoding and tokenizing; consequently, for
every tokenizer, lowercase flag and input text, every token encodes to the
unknown-token index. -/
theorem C10_binary_mode_never_hits_vocab (rand : Nat → List ℚ)
    (file : List (List String)) (mw : Option Nat) (r : BuildResult)
    (h : _get_word_idx_and_embeddings rand file true mw = .ok r) :
    (∀ p ∈ r.word_to_idx, ∃ s, p.1 = PyStr.bytes s) ∧
    ∀ (tokenizer : String → List String) (lowercase : Bool) (text : String),
      _tokenize r.word_to_idx r.unknown_token tokenizer lowercase text =
        List.replicate (tokenizer text).length r.unknown_token := by
  obtain ⟨wti, first, t, hload, -, hr⟩ := build_ok_shape _ _ _ _ _ h
  have hkeys : ∀ p ∈ wti, ∃ s, p.1 = mkKey true s :=
    loadLines_keys true mw file 0 [] [] wti (first :: t) hload (by simp)
  have hkeys' : ∀ p ∈ r.word_to_idx, ∃ s, p.1 = PyStr.bytes s := by
    subst hr; simpa [mkKey] using hkeys
  refine ⟨hkeys', ?_⟩
  intro tokenizer lowercase text
  have hconst :
      (fun w => (dictGet r.word_to_idx (PyStr.str w)).getD r.unknown_token) =
        fun _ => r.unknown_token :=
    funext fun w => by rw [dictGet_str_none _ _ hkeys']; rfl
  cases lowercase
  · simp [_tokenize, hconst, List.map_const']
  · simp [_tokenize, hconst]
    exact List.map_const' (tokenizer text) r.unknown_token

/-- C10, witness: building `fileA` in binary mode, looking up the word `a`
— which is in the file — still encodes to the unknown index 2. -/
theorem C10_witness :
    _tokenize rAb.word_to_idx rAb.unknown_token tok1 false "a" = [2] := by
  have h := (C10_binary_mode_never_hits_vocab rand0 fileA none rAb
    (by with_unfolding_all rfl)).2 tok1 false "a"
  exact h.trans (by decide)

/-- From any counter value `i ≥ 1` (so the header test of source line 216
cannot fire), a run over lines that all parse cleanly accepts every line,
inserting word `j` with index `i + j + 1` and appending its vector. -/
lemma loadLines_good (ib : Bool) :
    ∀ (lines : List (List String)) (i : Nat) (wti : Dict)
      (embs : List (List ℚ)),
    1 ≤ i → (∀ l ∈ lines, goodLine l = true) →
    loadLines ib none i wti embs lines =
      .ok (insertAllFrom ib i wti lines, embs ++ lines.map lineVec) := by
  intro lines
  induction lines with
  | nil => intro i wti embs hi hg; simp [loadLines, insertAllFrom]
  | cons l rest ih =>
    intro i wti embs hi hg
    have hgl : goodLine l = true := hg l (List.mem_cons_self l rest)
    obtain ⟨w, toks, rfl⟩ : ∃ w toks, l = w :: toks := by
      cases l with
      | nil => simp [goodLine] at hgl
      | cons w toks => exact ⟨w, toks, rfl⟩
    obtain ⟨vec, hvec⟩ : ∃ vec, toks.mapM parseFloat? = some vec := by
      simp only [goodLine, List.tail_cons, Bool.and_eq_true,
        Option.isSome_iff_exists] at hgl
      exact hgl.2
    rw [loadLines_cons]
    simp only [maxReached_none, Bool.false_eq_true, if_false]
    rw [if_neg (fun hc => absurd hc.2 (by omega))]
    simp only [hvec]
    rw [ih _ _ _ (by omega) (fun l' hl' => hg l' (List.mem_cons_of_mem _ hl'))]
    have hlv : lineVec (w :: toks) = vec := by
      unfold lineVec
      rw [List.tail_cons, hvec]
      rfl
    rw [List.map_cons, hlv]
    simp [insertAllFrom, lineWord, List.append_assoc]

/-- A clean run started at line 0 on a file whose first line does not have
exactly two tokens (so it is not taken for a header). -/
lemma loadLines_good_top (ib : Bool) (l0 : List String)
    (rest : List (List String)) (hh : l0.length ≠ 2)
    (hg : ∀ l ∈ l0 :: rest, goodLine l = true) :
    loadLines ib none 0 [] [] (l0 :: rest) =
      .ok (insertAllFrom ib 0 [] (l0 :: rest), (l0 :: rest).map lineVec) := by
  have hgl : goodLine l0 = true := hg l0 (List.mem_cons_self l0 rest)
  obtain ⟨w, toks, rfl⟩ : ∃ w toks, l0 = w :: toks := by
    cases l0 with
    | nil => simp [goodLine] at hgl
    | cons w toks => exact ⟨w, toks, rfl⟩
  obtain ⟨vec, hvec⟩ : ∃ vec, toks.mapM parseFloat? = some vec := by
    simp only [goodLine, List.tail_cons, Bool.and_eq_true,
      Option.isSome_iff_exists] at hgl
    exact hgl.2
  rw [loadLines_cons]
  simp only [maxReached_none, Bool.false_eq_true, if_false]
  rw [if_neg (fun hc => hh hc.1)]
  simp only [hvec]
  rw [loadLines_good ib rest 1 _ _ (by omega)
    (fun l' hl' => hg l' (List.mem_cons_of_mem _ hl'))]
  have hlv : lineVec (w :: toks) = vec := by
    unfold lineVec
    rw [List.tail_cons, hvec]
    rfl
  rw [List.map_cons, hlv]
  simp [insertAllFrom, lineWord, List.append_assoc]

/-- Keys built for the same mode from distinct words are distinct. -/
lemma mkKey_inj (ib : Bool) {a b : String} (h : mkKey ib a = mkKey ib b) :
    a = b := by
  cases ib <;> simpa [mkKey] using h

/-- Inserting an absent key appends it. -/
lemma dictInsert_fresh (d : Dict) (k : PyStr) (v : Nat)
    (h : hasKey d k = false) : dictInsert d k v = d ++ [(k, v)] := by
  unfold dictInsert
  rw [if_neg]
  simp [h]

/-- Inserting one key cannot make a different absent key present. -/
lemma hasKey_dictInsert_ne (d : Dict) (k k' : PyStr) (v : Nat)
    (hne : k ≠ k') (h : hasKey d k' = false) :
    hasKey (dictInsert d k v) k' = false := by
  unfold dictInsert
  split
  · unfold hasKey at h ⊢
    rw [List.any_map]
    rw [List.any_eq_false] at h ⊢
    intro p hp
    by_cases hpk : p.1 = k
    · simp [Function.comp, hpk, hne]
    · have := h p hp
      simp [Function.comp, hpk]
      simpa using this
  · unfold hasKey at h ⊢
    rw [List.any_append]
    rw [h]
    simp [hne]

/-- Inserting the words of pairwise-distinct lines, none already present,
grows the dict by exactly the number of lines. -/
lemma insertAllFrom_length (ib : Bool) :
    ∀ (lines : List (List String)) (i : Nat) (wti : Dict),
    (∀ l ∈ lines, hasKey wti (mkKey ib (lineWord l)) = false) →
    (lines.map lineWord).Nodup →
    (insertAllFrom ib i wti lines).length = wti.length + lines.length := by
  intro lines
  induction lines with
  | nil => intro i wti _ _; simp [insertAllFrom]
  | cons l rest ih =>
    intro i wti hfresh hnd
    have hfl : hasKey wti (mkKey ib (lineWord l)) = false :=
      hfresh l (List.mem_cons_self l rest)
    have hnd' : (rest.map lineWord).Nodup :=
      (List.nodup_cons.mp (by simpa using hnd)).2
    have hhead : lineWord l ∉ rest.map lineWord :=
      (List.nodup_cons.mp (by simpa using hnd)).1
    rw [insertAllFrom]
    rw [ih (i + 1) _ ?_ hnd']
    · rw [dictInsert_fresh _ _ _ hfl]
      simp [List.length_append]
      omega
    · intro l' hl'
      refine hasKey_dictInsert_ne _ _ _ _ ?_
        (hfresh l' (List.mem_cons_of_mem _ hl'))
      intro hkk
      exact hhead (by
        rw [mkKey_inj ib hkk]
        exact List.mem_map_of_mem lineWord hl')

/-- C7.  For a valid non-empty file without a header — first line not of
exactly two tokens, every line parses, all vectors of one length `d`
matching the random padding, words pairwise distinct — and no `max_words`
limit, the build succeeds with vocabulary size equal to the file's line
count and matrix row count equal to line count plus two (padding plus
unknown row). -/
theorem C7_no_header_counts (rand : Nat → List ℚ) (ib : Bool)
    (lines : List (List String)) (d : Nat)
    (hne : lines ≠ [])
    (hh : (lines.headD []).length ≠ 2)
    (hg : ∀ l ∈ lines, goodLine l = true)
    (hd : ∀ l ∈ lines, (lineVec l).length = d)
    (hr : (rand d).length = d)
    (hnd : (lines.map lineWord).Nodup) :
    isOkB (_get_word_idx_and_embeddings rand lines ib none) = true ∧
    (resultOf (_get_word_idx_and_embeddings
      rand lines ib none)).word_to_idx.length = lines.length ∧
    (resultOf (_get_word_idx_and_embeddings
      rand lines ib none)).embeddings_matrix.length = lines.length + 2 := by
  obtain ⟨l0, rest, rfl⟩ : ∃ l0 rest, lines = l0 :: rest := by
    cases lines with
    | nil => exact absurd rfl hne
    | cons l0 rest => exact ⟨l0, rest, rfl⟩
  have hload := loadLines_good_top ib l0 rest (by simpa using hh) hg
  have hd0 : (lineVec l0).length = d := hd l0 (List.mem_cons_self l0 rest)
  have hall : ((rand (lineVec l0).length) :: lineVec l0 :: rest.map lineVec).all
      (fun row => row.length = (rand (lineVec l0).length).length) = true := by
    rw [hd0]
    rw [List.all_eq_true]
    intro row hrow
    rcases List.mem_cons.mp hrow with h0 | hrow'
    · simp [h0]
    rcases List.mem_cons.mp hrow' with h1 | hrow''
    · simp [h1, hd0, hr]
    · obtain ⟨l', hl', hrow⟩ := List.mem_map.mp hrow''
      have := hd l' (List.mem_cons_of_mem _ hl')
      simp [← hrow, this, hr]
  have hbuild : _get_word_idx_and_embeddings rand (l0 :: rest) ib none =
      .ok ⟨insertAllFrom ib 0 [] (l0 :: rest),
           ((rand (lineVec l0).length) :: lineVec l0 :: rest.map lineVec)
             ++ [matMean ((rand (lineVec l0).length)
                   :: lineVec l0 :: rest.map lineVec)],
           ((rand (lineVec l0).length)
             :: lineVec l0 :: rest.map lineVec).length,
           (rand (lineVec l0).length).length⟩ := by
    unfold _get_word_idx_and_embeddings
    rw [hload]
    simp only [List.map_cons]
    rw [if_pos hall]
  rw [hbuild]
  refine ⟨rfl, ?_, ?_⟩
  · show (insertAllFrom ib 0 [] (l0 :: rest)).length = _
    rw [insertAllFrom_length ib (l0 :: rest) 0 [] (fun l _ => rfl) hnd]
    simp
  · show (((rand (lineVec l0).length) :: lineVec l0 :: rest.map lineVec)
      ++ [matMean _]).length = _
    simp [List.length_append]

/-- The spec's own scenario file: `the 1.0 2.0`, `cat 3.0 4.0`. -/
def fileTC : List (List String) := [["the", "1.0", "2.0"], ["cat", "3.0", "4.0"]]

/-- C7, witness at the spec's two-line scenario file. -/
theorem C7_witness :
    isOkB (_get_word_idx_and_embeddings rand0 fileTC false none) = true ∧
    (resultOf (_get_word_idx_and_embeddings
      rand0 fileTC false none)).word_to_idx.length = 2 ∧
    (resultOf (_get_word_idx_and_embeddings
      rand0 fileTC false none)).embeddings_matrix.length = 4 := by
  have h := C7_no_header_counts rand0 false fileTC 2
    (by decide) (by decide)
    (by with_unfolding_all (exact of_decide_eq_true rfl))
    (by with_unfolding_all (exact of_decide_eq_true rfl))
    (by with_unfolding_all rfl) (by decide)
  exact ⟨h.1, h.2.1, h.2.2⟩

/-- Row `i` of `(pad :: rows) ++ [last]`, for `1 ≤ i ≤ rows.length`, is row
`i - 1` of `rows`. -/
lemma getD_middle (pad : List ℚ) (embs : List (List ℚ)) (last : List ℚ)
    (i : Nat) (h1 : 1 ≤ i) (h2 : i ≤ embs.length) :
    ((pad :: embs) ++ [last]).getD i [] = embs.getD (i - 1) [] := by
  obtain ⟨j, rfl⟩ : ∃ j, i = j + 1 := ⟨i - 1, by omega⟩
  rw [List.cons_append, List.getD_cons_succ]
  simp only [Nat.add_sub_cancel]
  exact List.getD_append _ _ _ _ (by omega)

/-- C8.  Two successful builds of the same file with the same flags but
different random sources agree on `word_to_idx`, the unknown index, the
embedding size, the matrix row count, and every real-word row `1..N`; only
row 0 (the random padding) and the final mean row may differ.  The reading
loop never consults the random source, which enters only at the padding
insert of source line 224. -/
theorem C8_build_deterministic (rand1 rand2 : Nat → List ℚ)
    (file : List (List String)) (ib : Bool) (mw : Option Nat)
    (r1 r2 : BuildResult)
    (h1 : _get_word_idx_and_embeddings rand1 file ib mw = .ok r1)
    (h2 : _get_word_idx_and_embeddings rand2 file ib mw = .ok r2) :
    r1.word_to_idx = r2.word_to_idx ∧
    r1.unknown_token = r2.unknown_token ∧
    r1.embedding_size = r2.embedding_size ∧
    r1.embeddings_matrix.length = r2.embeddings_matrix.length ∧
    ∀ i, 1 ≤ i → i + 1 < r1.embeddings_matrix.length →
      r1.embeddings_matrix.getD i [] = r2.embeddings_matrix.getD i [] := by
  obtain ⟨w1, f1, t1, hl1, ha1, hr1⟩ := build_ok_shape _ _ _ _ _ h1
  obtain ⟨w2, f2, t2, hl2, ha2, hr2⟩ := build_ok_shape _ _ _ _ _ h2
  rw [hl1] at hl2
  injection hl2 with hp
  injection hp with hw hft
  injection hft with hf ht
  subst hw hf ht hr1 hr2
  have hs1 : (rand1 f1.length).length = f1.length := by
    rw [List.all_eq_true] at ha1
    exact (of_decide_eq_true (ha1 f1 (by simp))).symm
  have hs2 : (rand2 f1.length).length = f1.length := by
    rw [List.all_eq_true] at ha2
    exact (of_decide_eq_true (ha2 f1 (by simp))).symm
  refine ⟨rfl, by simp, by simp [hs1, hs2], by simp [hs1, hs2], ?_⟩
  intro i hi1 hi2
  have hlen : i ≤ (f1 :: t1).length := by
    simp only [List.length_append, List.length_cons, List.length_nil] at hi2
    simp only [List.length_cons]
    omega
  rw [getD_middle _ _ _ i hi1 hlen, getD_middle _ _ _ i hi1 hlen]

/-- C8, witness: `fileA` built with `rand0` and with `rand1` gives the same
mapping, unknown index, size, row count, and the same word row 1. -/
theorem C8_witness :
    rA.word_to_idx = rA1.word_to_idx ∧
    rA.unknown_token = rA1.unknown_token ∧
    rA.embedding_size = rA1.embedding_size ∧
    rA.embeddings_matrix.length = rA1.embeddings_matrix.length ∧
    rA.embeddings_matrix.getD 1 [] = rA1.embeddings_matrix.getD 1 [] := by
  have h := C8_build_deterministic rand0 rand1 fileA false none rA rA1
    (by with_unfolding_all rfl) (by with_unfolding_all rfl)
  exact ⟨h.1, h.2.1, h.2.2.1, h.2.2.2.1, h.2.2.2.2 1 (by omega) (by decide)⟩
